import Mathlib

/-!
Verification of the audit-logging core of this repository.

The registry of loggable relations (`LogRelationsRegistry` in
`auditlog/relations.py`) is embedded directly from the source: models are
identified by name, a schema maps a model name and a field name to the
field's metadata (`_meta.get_field`), and the registry is the dict mapping a
model to its registered relation strings.  Components of the repository that
are referenced only by its tests (the log-entry model, the diff computation,
the middleware's actor context) are modelled from the specification; each
such definition carries a doc comment starting `Modelled from the spec:`.
-/

set_option autoImplicit false

/-- Field metadata as seen by `_meta.get_field`: either a plain (scalar)
field, or a related field (`RelatedField` in the source) whose
`field.related.parent_model` is `target`. -/
inductive ModelField where
  | plain
  | related (target : String)
  deriving DecidableEq, Repr

/-- Schema introspection: `schema m f` is the field named `f` of model `m`,
or `none` when `_meta.get_field` would raise `FieldDoesNotExist`. -/
abbrev Schema := String → String → Option ModelField

/-- Errors raised by `LogRelationsRegistry._validate_relations`:
`invalidRelation model parent part` embeds the
`ValueError("Error on '%s': '%s' has no relation '%s'" % (model, parent, part))`
branch, and `fieldDoesNotExist parent part` embeds the `FieldDoesNotExist`
exception escaping from `parent._meta.get_field(part)`. -/
inductive RegError where
  | invalidRelation (model parent part : String)
  | fieldDoesNotExist (parent part : String)
  deriving DecidableEq, Repr

/-- Auxiliary scan for `splitDunder`: Python's `str.split` scans left to
right, cutting at each (non-overlapping) occurrence of the separator. -/
def splitDunderAux : List Char → List Char → List String
  | [], acc => [String.mk acc.reverse]
  | '_' :: '_' :: rest, acc => String.mk acc.reverse :: splitDunderAux rest []
  | c :: rest, acc => splitDunderAux rest (c :: acc)

/-- `relation.split('__')`: split a relation string on the double-underscore
separator, keeping empty components, as Python's `str.split` does. -/
def splitDunder (s : String) : List String :=
  splitDunderAux s.toList []

/-- The inner loop of `_validate_relations`: walk the components of one
relation string, threading the current model (`parent` in the source) and
requiring each component to be a related field. -/
def validateParts (schema : Schema) (model : String) : String → List String → Except RegError Unit
  | _, [] => Except.ok ()
  | parent, part :: rest =>
    match schema parent part with
    | none => Except.error (RegError.fieldDoesNotExist parent part)
    | some (ModelField.related target) => validateParts schema model target rest
    | some ModelField.plain => Except.error (RegError.invalidRelation model parent part)

/-- `LogRelationsRegistry._validate_relations`: validate every relation
string, splitting each one on `"__"` as `relation.split('__')` does. -/
def validateRelations (schema : Schema) (model : String) : List String → Except RegError Unit
  | [] => Except.ok ()
  | r :: rs =>
    match validateParts schema model model (splitDunder r) with
    | Except.ok _ => validateRelations schema model rs
    | Except.error e => Except.error e

/-- The registry state: `LogRelationsRegistry` is a `dict` from model to its
registered relation strings. -/
abbrev Registry := String → Option (List String)

/-- A freshly constructed, empty registry. -/
def emptyRegistry : Registry := fun _ => none

/-- The module-level singleton `logrels = LogRelationsRegistry()`. -/
def logrels : Registry := emptyRegistry

/-- The module-level alias `auditrels = logrels`. -/
def auditrels : Registry := logrels

/-- `LogRelationsRegistry.register`: validate, then `self[model] = relations`.
A raised exception is returned alongside the unchanged state. -/
def register (schema : Schema) (model : String) (relations : List String) (reg : Registry) :
    Registry × Option RegError :=
  match validateRelations schema model relations with
  | Except.error e => (reg, some e)
  | Except.ok _ => (fun m => if m = model then some relations else reg m, none)

/-- `LogRelationsRegistry.unregister`: `self.pop(model, None)`. -/
def unregister (model : String) (reg : Registry) : Registry :=
  fun m => if m = model then none else reg m

/-- Modelled from the spec: `resolve(entity_type)` is not defined in the
source registry (a plain `dict`); per the spec it "returns the registered
relation paths for the type, or empty set if none registered". -/
def resolve (reg : Registry) (model : String) : List String :=
  (reg model).getD []

/-- The spec-side reading of a valid path: `Walk schema m parts e` holds when
the components `parts`, resolved one hop at a time starting from model `m`,
are all relational fields and lead to model `e`. -/
inductive Walk (schema : Schema) : String → List String → String → Prop where
  | nil (m : String) : Walk schema m [] m
  | cons {m t e part : String} {rest : List String} :
      schema m part = some (ModelField.related t) → Walk schema t rest e →
      Walk schema m (part :: rest) e

/-- Executable form of the spec-side hop condition: every component, resolved
one hop at a time from `parent`, names a relational field. -/
def hopsOk (schema : Schema) : String → List String → Bool
  | _, [] => true
  | parent, part :: rest =>
    match schema parent part with
    | some (ModelField.related target) => hopsOk schema target rest
    | _ => false

/-- A sample schema with the shapes used by the repository's test app:
`SimpleChildModel.parent` is a foreign key to `SimpleModel`, and
`SimpleModel.text` is a plain field. -/
def sampleSchema : Schema := fun m f =>
  if m = "SimpleChildModel" ∧ f = "parent" then some (ModelField.related "SimpleModel")
  else if m = "SimpleModel" ∧ f = "text" then some ModelField.plain
  else none

example : splitDunder "parent__text" = ["parent", "text"] := by decide
example : splitDunder "" = [""] := by decide
example : splitDunder "a___b" = ["a", "_b"] := by decide
example : (register sampleSchema "SimpleChildModel" ["parent"] emptyRegistry).2 = none := by decide
example : (register sampleSchema "SimpleChildModel" ["parent__text"] emptyRegistry).2
    = some (RegError.invalidRelation "SimpleChildModel" "SimpleModel" "text") := by decide
example : (register sampleSchema "SimpleModel" ["ghost"] emptyRegistry).2
    = some (RegError.fieldDoesNotExist "SimpleModel" "ghost") := by decide

theorem validateParts_ok_iff_walk (schema : Schema) (model start : String) (parts : List String) :
    validateParts schema model start parts = Except.ok () ↔ ∃ e, Walk schema start parts e := by
  induction parts generalizing start with
  | nil =>
    simp only [validateParts]
    exact ⟨fun _ => ⟨start, Walk.nil start⟩, fun _ => trivial⟩
  | cons part rest ih =>
    cases h : schema start part with
    | none =>
      simp only [validateParts, h]
      constructor
      · intro hc; cases hc
      · rintro ⟨e, hw⟩
        cases hw with
        | cons h1 h2 => rw [h] at h1; cases h1
    | some fld =>
      cases fld with
      | plain =>
        simp only [validateParts, h]
        constructor
        · intro hc; cases hc
        · rintro ⟨e, hw⟩
          cases hw with
          | cons h1 h2 => rw [h] at h1; cases h1
      | related t =>
        simp only [validateParts, h]
        rw [ih t]
        constructor
        · rintro ⟨e, hw⟩
          exact ⟨e, Walk.cons h hw⟩
        · rintro ⟨e, hw⟩
          cases hw with
          | cons h1 h2 =>
            rw [h] at h1
            cases h1
            exact ⟨e, h2⟩

theorem validateParts_ok_iff_hopsOk (schema : Schema) (model start : String) (parts : List String) :
    validateParts schema model start parts = Except.ok () ↔ hopsOk schema start parts = true := by
  induction parts generalizing start with
  | nil => simp [validateParts, hopsOk]
  | cons part rest ih =>
    cases h : schema start part with
    | none => simp [validateParts, hopsOk, h]
    | some fld =>
      cases fld with
      | plain => simp [validateParts, hopsOk, h]
      | related t => simp only [validateParts, hopsOk, h]; exact ih t

theorem validateParts_invalid (schema : Schema) (model start : String) (parts : List String)
    (m p c : String)
    (h : validateParts schema model start parts = Except.error (RegError.invalidRelation m p c)) :
    m = model ∧ schema p c = some ModelField.plain ∧
      ∃ pre post, parts = pre ++ c :: post ∧ Walk schema start pre p := by
  induction parts generalizing start with
  | nil => simp [validateParts] at h
  | cons part rest ih =>
    cases hf : schema start part with
    | none => simp [validateParts, hf] at h
    | some fld =>
      cases fld with
      | plain =>
        simp only [validateParts, hf, Except.error.injEq, RegError.invalidRelation.injEq] at h
        obtain ⟨hm, hp, hc⟩ := h
        subst hm; subst hp; subst hc
        exact ⟨rfl, hf, [], rest, rfl, Walk.nil start⟩
      | related t =>
        simp only [validateParts, hf] at h
        obtain ⟨hm, hpc, pre, post, hparts, hwalk⟩ := ih t h
        exact ⟨hm, hpc, part :: pre, post, by rw [hparts]; rfl, Walk.cons hf hwalk⟩

theorem validateRelations_ok_iff (schema : Schema) (model : String) (rels : List String) :
    validateRelations schema model rels = Except.ok () ↔
      ∀ r ∈ rels, validateParts schema model model (splitDunder r) = Except.ok () := by
  induction rels with
  | nil => simp [validateRelations]
  | cons r rs ih =>
    cases h : validateParts schema model model (splitDunder r) with
    | ok u =>
      cases u
      simp only [validateRelations, h]
      rw [ih]
      constructor
      · intro hall s hs
        cases List.mem_cons.mp hs with
        | inl he => rw [he]; exact h
        | inr hm => exact hall s hm
      · intro hall s hs
        exact hall s (List.mem_cons_of_mem r hs)
    | error e =>
      simp only [validateRelations, h]
      constructor
      · intro hc; cases hc
      · intro hall
        have := hall r (List.mem_cons_self r rs)
        rw [h] at this
        cases this

theorem validateRelations_error (schema : Schema) (model : String) (rels : List String)
    (e : RegError) (h : validateRelations schema model rels = Except.error e) :
    ∃ r ∈ rels, validateParts schema model model (splitDunder r) = Except.error e := by
  induction rels with
  | nil => simp [validateRelations] at h
  | cons r rs ih =>
    cases hv : validateParts schema model model (splitDunder r) with
    | ok u =>
      cases u
      simp only [validateRelations, hv] at h
      obtain ⟨s, hs, he⟩ := ih h
      exact ⟨s, List.mem_cons_of_mem r hs, he⟩
    | error f =>
      simp only [validateRelations, hv, Except.error.injEq] at h
      subst h
      exact ⟨r, List.mem_cons_self r rs, hv⟩

theorem register_snd_none_iff (schema : Schema) (model : String) (rels : List String)
    (reg : Registry) :
    (register schema model rels reg).2 = none ↔
      validateRelations schema model rels = Except.ok () := by
  cases h : validateRelations schema model rels with
  | ok u => cases u; simp [register, h]
  | error e => simp [register, h]

theorem register_snd_some (schema : Schema) (model : String) (rels : List String)
    (reg : Registry) (e : RegError) (h : (register schema model rels reg).2 = some e) :
    validateRelations schema model rels = Except.error e ∧
      (register schema model rels reg).1 = reg := by
  cases hv : validateRelations schema model rels with
  | ok u => cases u; simp [register, hv] at h
  | error f =>
    simp only [register, hv, Option.some.injEq] at h
    subst h
    exact ⟨rfl, by simp [register, hv]⟩

theorem register_fst_ok (schema : Schema) (model : String) (rels : List String)
    (reg : Registry) (h : validateRelations schema model rels = Except.ok ()) :
    (register schema model rels reg).1 = fun m => if m = model then some rels else reg m := by
  simp [register, h]

/-- Follows the spec's words for claim C4, to be compared with the source:
the same scan as `splitDunderAux` but cutting on the dot character. -/
def splitDotAux : List Char → List Char → List String
  | [], acc => [String.mk acc.reverse]
  | '.' :: rest, acc => String.mk acc.reverse :: splitDotAux rest []
  | c :: rest, acc => splitDotAux rest (c :: acc)

/-- Follows the spec's words for claim C4: decompose a relation path by
splitting on the dot character. -/
def splitDot (s : String) : List String :=
  splitDotAux s.toList []

/-- Follows the spec's words for claim C4: validation as `validateRelations`,
but with each relation string decomposed by splitting on the dot character
rather than on the source's `'__'` separator. -/
def validateRelationsDotSpec (schema : Schema) (model : String) :
    List String → Except RegError Unit
  | [] => Except.ok ()
  | r :: rs =>
    match validateParts schema model model (splitDot r) with
    | Except.ok _ => validateRelationsDotSpec schema model rs
    | Except.error e => Except.error e

/-- A schema with a two-hop relation chain: model `C` has a foreign key
`parent` to `B`, which has a foreign key `parent` to `A`. -/
def chainSchema : Schema := fun m f =>
  if m = "C" ∧ f = "parent" then some (ModelField.related "B")
  else if m = "B" ∧ f = "parent" then some (ModelField.related "A")
  else none

/-- C1: register succeeds iff every component of every path, resolved one hop
at a time from the entity type, names a relational field; and when register
fails with the invalid-relation error, the error names the offending type and
component: the named type is reached by a relational walk along a prefix of a
registered path, and its named field exists but is not a relation. -/
theorem c1_register_validation (schema : Schema) (reg : Registry) (model : String)
    (rels : List String) :
    ((register schema model rels reg).2 = none ↔
      ∀ r ∈ rels, ∃ e, Walk schema model (splitDunder r) e)
    ∧ (∀ m p c, (register schema model rels reg).2 = some (RegError.invalidRelation m p c) →
        m = model ∧ schema p c = some ModelField.plain ∧
        ∃ r ∈ rels, ∃ pre post, splitDunder r = pre ++ c :: post ∧ Walk schema model pre p) := by
  constructor
  · rw [register_snd_none_iff, validateRelations_ok_iff]
    constructor
    · intro h r hr
      exact (validateParts_ok_iff_walk schema model model (splitDunder r)).mp (h r hr)
    · intro h r hr
      exact (validateParts_ok_iff_walk schema model model (splitDunder r)).mpr (h r hr)
  · intro m p c h
    obtain ⟨hv, -⟩ := register_snd_some schema model rels reg _ h
    obtain ⟨r, hr, he⟩ := validateRelations_error schema model rels _ hv
    obtain ⟨hm, hpc, pre, post, hsplit, hw⟩ :=
      validateParts_invalid schema model model (splitDunder r) m p c he
    exact ⟨hm, hpc, r, hr, pre, post, hsplit, hw⟩

/-- Witness for C1 at a concrete input: registering `"parent__text"` for
`SimpleChildModel` fails naming `SimpleModel` and `text`, and indeed
`SimpleModel` is reached by a relational walk and `text` is a plain field. -/
theorem c1_register_validation_witness :
    "SimpleChildModel" = "SimpleChildModel" ∧
    sampleSchema "SimpleModel" "text" = some ModelField.plain ∧
    ∃ r ∈ ["parent__text"], ∃ pre post, splitDunder r = pre ++ "text" :: post ∧
      Walk sampleSchema "SimpleChildModel" pre "SimpleModel" :=
  (c1_register_validation sampleSchema emptyRegistry "SimpleChildModel" ["parent__text"]).2
    "SimpleChildModel" "SimpleModel" "text" (by decide)

/-- C2: registering a set containing an invalid path fails and leaves the
registry state exactly as it was before the call. -/
theorem c2_register_failure_keeps_state (schema : Schema) (reg : Registry) (model : String)
    (rels : List String) (h : ∃ r ∈ rels, hopsOk schema model (splitDunder r) = false) :
    ((register schema model rels reg).2).isSome ∧ (register schema model rels reg).1 = reg := by
  obtain ⟨r, hr, hbad⟩ := h
  cases hv : validateRelations schema model rels with
  | ok u =>
    cases u
    have hok := (validateRelations_ok_iff schema model rels).mp hv r hr
    rw [validateParts_ok_iff_hopsOk, hbad] at hok
    cases hok
  | error e => simp [register, hv]

/-- Witness for C2: registering the plain field `"text"` for `SimpleModel`
fails and keeps the empty registry unchanged. -/
theorem c2_register_failure_keeps_state_witness :
    ((register sampleSchema "SimpleModel" ["text"] emptyRegistry).2).isSome ∧
    (register sampleSchema "SimpleModel" ["text"] emptyRegistry).1 = emptyRegistry :=
  c2_register_failure_keeps_state sampleSchema emptyRegistry "SimpleModel" ["text"]
    ⟨"text", by decide, by decide⟩

/-- C3: resolve returns the empty set for a type that was never registered or
was unregistered, and returns exactly the most recently registered paths for
a registered type. -/
theorem c3_resolve_total (schema : Schema) (reg : Registry) (model : String)
    (rels : List String) :
    (reg model = none → resolve reg model = []) ∧
    resolve (unregister model reg) model = [] ∧
    ((register schema model rels reg).2 = none →
      resolve (register schema model rels reg).1 model = rels) := by
  refine ⟨?_, ?_, ?_⟩
  · intro h; simp [resolve, h]
  · simp [resolve, unregister]
  · intro h
    rw [register_snd_none_iff] at h
    rw [register_fst_ok schema model rels reg h]
    simp [resolve]

/-- Witness for C3: on the empty registry resolution yields the empty set,
and after registering `["parent"]` for `SimpleChildModel` it yields exactly
that set. -/
theorem c3_resolve_total_witness :
    resolve emptyRegistry "SimpleChildModel" = [] ∧
    resolve (register sampleSchema "SimpleChildModel" ["parent"] emptyRegistry).1
      "SimpleChildModel" = ["parent"] :=
  ⟨(c3_resolve_total sampleSchema emptyRegistry "SimpleChildModel" ["parent"]).1 rfl,
   (c3_resolve_total sampleSchema emptyRegistry "SimpleChildModel" ["parent"]).2.2 (by decide)⟩

/-- C4 counterexample: the source decomposes relation strings on `'__'`, not
on the dot character.  On the two-hop path `"parent__parent"` the source's
validation succeeds, while the dot-splitting validation demanded by the claim
fails because no single field is named `"parent__parent"`. -/
theorem c4_counterexample_dot :
    (register chainSchema "C" ["parent__parent"] emptyRegistry).2 = none ∧
    validateRelationsDotSpec chainSchema "C" ["parent__parent"]
      = Except.error (RegError.fieldDoesNotExist "C" "parent__parent") := by
  constructor
  · decide
  · rfl

/-- C4 amended: during registration validation a relation path string is
decomposed into its components by splitting on the double-underscore
separator `'__'`, and each such component is resolved as one hop. -/
theorem c4_amended_dunder_split (schema : Schema) (reg : Registry) (model r : String) :
    (register schema model [r] reg).2 = none ↔
      hopsOk schema model (splitDunder r) = true := by
  rw [register_snd_none_iff, validateRelations_ok_iff]
  constructor
  · intro h
    exact (validateParts_ok_iff_hopsOk schema model model (splitDunder r)).mp
      (h r (List.mem_singleton.mpr rfl))
  · intro h s hs
    rw [List.mem_singleton] at hs
    subst hs
    exact (validateParts_ok_iff_hopsOk schema model model (splitDunder s)).mpr h

/-- C8: a successful register replaces any prior registration for the same
entity type, so after registering R1 and then R2 for the same type, the
stored registration is exactly R2. -/
theorem c8_register_last_write_wins (schema : Schema) (reg : Registry) (model : String)
    (r1 r2 : List String)
    (h1 : (register schema model r1 reg).2 = none)
    (h2 : (register schema model r2 (register schema model r1 reg).1).2 = none) :
    (register schema model r2 (register schema model r1 reg).1).1 model = some r2 ∧
    resolve (register schema model r2 (register schema model r1 reg).1).1 model = r2 := by
  rw [register_snd_none_iff] at h2
  rw [register_fst_ok schema model r2 (register schema model r1 reg).1 h2]
  simp [resolve]

/-- Witness for C8: registering `["parent"]` and then `["parent__parent"]`
for model `C` leaves `["parent__parent"]` registered. -/
theorem c8_register_last_write_wins_witness :
    (register chainSchema "C" ["parent__parent"]
        (register chainSchema "C" ["parent"] emptyRegistry).1).1 "C"
      = some ["parent__parent"] ∧
    resolve (register chainSchema "C" ["parent__parent"]
        (register chainSchema "C" ["parent"] emptyRegistry).1).1 "C"
      = ["parent__parent"] :=
  c8_register_last_write_wins chainSchema emptyRegistry "C" ["parent"] ["parent__parent"]
    (by decide) (by decide)

/-- C9: unregister removes the registration for the type, never fails (it is
a total function), is idempotent, and is a no-op when no registration
exists. -/
theorem c9_unregister_noop_idempotent (reg : Registry) (model : String) :
    unregister model reg model = none ∧
    unregister model (unregister model reg) = unregister model reg ∧
    (reg model = none → unregister model reg = reg) := by
  refine ⟨by simp [unregister], ?_, ?_⟩
  · funext m
    by_cases h : m = model <;> simp [unregister, h]
  · intro h
    funext m
    by_cases hm : m = model
    · subst hm; simp [unregister, h]
    · simp [unregister, hm]

/-- Witness for C9: unregistering `SimpleModel` from the empty registry
removes nothing and returns the registry unchanged. -/
theorem c9_unregister_noop_idempotent_witness :
    unregister "SimpleModel" emptyRegistry "SimpleModel" = none ∧
    unregister "SimpleModel" emptyRegistry = emptyRegistry :=
  ⟨(c9_unregister_noop_idempotent emptyRegistry "SimpleModel").1,
   (c9_unregister_noop_idempotent emptyRegistry "SimpleModel").2.2 rfl⟩

/-- C10: for distinct entity types, register (successful or failed) and
unregister for one type leave the registration stored for the other type
unchanged. -/
theorem c10_frame (schema : Schema) (reg : Registry) (m : String) (rels : List String)
    (m2 : String) (h : m2 ≠ m) :
    (register schema m rels reg).1 m2 = reg m2 ∧ unregister m reg m2 = reg m2 := by
  constructor
  · cases hv : validateRelations schema m rels with
    | ok u => cases u; simp [register, hv, h]
    | error e => simp [register, hv]
  · simp [unregister, h]

/-- Witness for C10: registering or unregistering `SimpleChildModel` does not
disturb the entry stored for `SimpleModel`. -/
theorem c10_frame_witness :
    (register sampleSchema "SimpleChildModel" ["parent"] emptyRegistry).1 "SimpleModel"
      = emptyRegistry "SimpleModel" ∧
    unregister "SimpleChildModel" emptyRegistry "SimpleModel" = emptyRegistry "SimpleModel" :=
  c10_frame sampleSchema emptyRegistry "SimpleChildModel" ["parent"] "SimpleModel" (by decide)

/-- The three audited actions of `LogEntry.Action`. -/
inductive LogEntry.Action where
  | CREATE
  | UPDATE
  | DELETE
  deriving DecidableEq, Repr

/-- A field-level change: field name, previous representation, new
representation. -/
abbrev Changes := List (String × String × String)

/-- Modelled from the spec: the `LogEntry` record (the Django model class is
not under the available sources).  Fields follow the spec's data model:
entity type, entity id, captured representation, action, field diff, actor
and creation time. -/
structure LogEntry where
  entity_type : String
  entity_id : String
  entity_repr : String
  action : LogEntry.Action
  changes : Changes
  actor : Option String
  timestamp : Nat
  deriving DecidableEq, Repr

/-- Modelled from the spec: a `RelatedLogEntry` links a log entry to an
ancestor entity reached via a named relation path. -/
structure RelatedLogEntry where
  log_entry : LogEntry
  related_entity_type : String
  related_entity_id : String
  relation : String
  deriving DecidableEq, Repr

/-- A snapshot of an entity's fields: field name paired with the string
representation of its value. -/
abbrev Snapshot := List (String × String)

/-- Modelled from the spec: the sentinel "absent" representation used by the
diff for a field missing from one of the snapshots. -/
def absentRepr : String := "(absent)"

/-- First match of a field name in a snapshot. -/
def lookupField : Snapshot → String → Option String
  | [], _ => none
  | (g, v) :: rest, f => if g = f then some v else lookupField rest f

/-- Modelled from the spec: the part of `DiffEngine.diff` iterating the new
snapshot's fields in order; a field is included iff its old and new
representations differ, and a field absent from the old snapshot is treated
as changed from the sentinel representation. -/
def diffNew (old : Snapshot) : Snapshot → Changes
  | [] => []
  | (f, newR) :: rest =>
    match lookupField old f with
    | some oldR => if oldR = newR then diffNew old rest else (f, oldR, newR) :: diffNew old rest
    | none => (f, absentRepr, newR) :: diffNew old rest

/-- Modelled from the spec: the part of `DiffEngine.diff` covering fields
present only in the old snapshot, treated as changed to the sentinel
representation. -/
def diffRemoved (newS : Snapshot) : Snapshot → Changes
  | [] => []
  | (f, oldR) :: rest =>
    match lookupField newS f with
    | some _ => diffRemoved newS rest
    | none => (f, oldR, absentRepr) :: diffRemoved newS rest

/-- Modelled from the spec: `DiffEngine.diff` covers every field present in
either snapshot, new-snapshot fields first in their iteration order. -/
def diff (old new : Snapshot) : Changes :=
  diffNew old new ++ diffRemoved new old

/-- Modelled from the spec: `LogEntryFactory.record` appends exactly one
entry, except for the required no-op guard: an UPDATE with an empty diff is
not recorded. -/
def record (log : List LogEntry) (etype eid erepr : String) (action : LogEntry.Action)
    (changes : Changes) (actor : Option String) (ts : Nat) : List LogEntry :=
  if action = LogEntry.Action.UPDATE ∧ changes = [] then log
  else log ++ [⟨etype, eid, erepr, action, changes, actor, ts⟩]

/-- Modelled from the spec: the control flow on an entity update — the host
supplies the old and new snapshots, the factory computes the diff and records
an UPDATE entry subject to the no-op guard. -/
def logUpdate (log : List LogEntry) (etype eid erepr : String) (old new : Snapshot)
    (actor : Option String) (ts : Nat) : List LogEntry :=
  record log etype eid erepr LogEntry.Action.UPDATE (diff old new) actor ts

/-- Modelled from the spec: `LogEntryFactory.propagate` — for each relation
path registered for the entity type, resolve the ancestor via the host's
traversal capability and, when it resolves, create one related entry linking
back to the originating log entry; an unresolved ancestor is silently
skipped. -/
def propagate (resolveRelated : String → Option (String × String)) (reg : Registry)
    (entry : LogEntry) (etype : String) : List RelatedLogEntry :=
  (resolve reg etype).filterMap fun path =>
    (resolveRelated path).map fun anc =>
      ⟨entry, anc.1, anc.2, path⟩

/-- Modelled from the spec: creating an entity records one CREATE entry and
then propagates it along the registered relation paths. -/
def logCreate (resolveRelated : String → Option (String × String)) (reg : Registry)
    (etype eid erepr : String) (actor : Option String) (ts : Nat) :
    LogEntry × List RelatedLogEntry :=
  let entry : LogEntry := ⟨etype, eid, erepr, LogEntry.Action.CREATE, [], actor, ts⟩
  (entry, propagate resolveRelated reg entry etype)

theorem lookupField_eq_some_of_mem_nodup (s : Snapshot) (f v : String)
    (hnd : (s.map Prod.fst).Nodup) (hm : (f, v) ∈ s) : lookupField s f = some v := by
  induction s with
  | nil => cases hm
  | cons p rest ih =>
    obtain ⟨g, w⟩ := p
    simp only [List.map_cons, List.nodup_cons] at hnd
    obtain ⟨hg, hnd2⟩ := hnd
    cases List.mem_cons.mp hm with
    | inl he =>
      rw [Prod.mk.injEq] at he
      obtain ⟨he1, he2⟩ := he
      subst he1; subst he2
      simp [lookupField]
    | inr hr =>
      by_cases hfg : g = f
      · subst hfg
        exact absurd (List.mem_map_of_mem Prod.fst hr) hg
      · simp only [lookupField, hfg, if_false]
        exact ih hnd2 hr

theorem lookupField_isSome_of_mem_keys (s : Snapshot) (f : String)
    (h : f ∈ s.map Prod.fst) : (lookupField s f).isSome := by
  induction s with
  | nil => simp at h
  | cons p rest ih =>
    obtain ⟨g, w⟩ := p
    by_cases hfg : g = f
    · simp [lookupField, hfg]
    · simp only [lookupField, hfg, if_false]
      simp only [List.map_cons, List.mem_cons] at h
      cases h with
      | inl he => exact absurd he.symm hfg
      | inr hr => exact ih hr

theorem diffNew_eq_nil (old new : Snapshot)
    (h : ∀ p ∈ new, lookupField old p.1 = some p.2) : diffNew old new = [] := by
  induction new with
  | nil => rfl
  | cons p rest ih =>
    obtain ⟨f, v⟩ := p
    have hf : lookupField old f = some v := h (f, v) (List.mem_cons_self _ _)
    simp only [diffNew, hf, if_pos rfl]
    exact ih fun q hq => h q (List.mem_cons_of_mem _ hq)

theorem diffNew_append (old xs rest : Snapshot)
    (h : ∀ p ∈ xs, lookupField old p.1 = some p.2) :
    diffNew old (xs ++ rest) = diffNew old rest := by
  induction xs with
  | nil => rfl
  | cons p ys ih =>
    obtain ⟨f, v⟩ := p
    have hf : lookupField old f = some v := h (f, v) (List.mem_cons_self _ _)
    simp only [List.cons_append, diffNew, hf, if_pos rfl]
    exact ih fun q hq => h q (List.mem_cons_of_mem _ hq)

theorem diffRemoved_eq_nil (newS old : Snapshot)
    (h : ∀ p ∈ old, (lookupField newS p.1).isSome) : diffRemoved newS old = [] := by
  induction old with
  | nil => rfl
  | cons p rest ih =>
    obtain ⟨f, v⟩ := p
    have hf := h (f, v) (List.mem_cons_self _ _)
    cases hlk : lookupField newS f with
    | none => rw [hlk] at hf; cases hf
    | some w =>
      simp only [diffRemoved, hlk]
      exact ih fun q hq => h q (List.mem_cons_of_mem _ hq)

theorem diff_self_eq_nil (s : Snapshot) (hnd : (s.map Prod.fst).Nodup) : diff s s = [] := by
  have h1 : ∀ p ∈ s, lookupField s p.1 = some p.2 := by
    rintro ⟨f, v⟩ hp
    exact lookupField_eq_some_of_mem_nodup s f v hnd hp
  have h2 : ∀ p ∈ s, (lookupField s p.1).isSome := by
    rintro ⟨f, v⟩ hp
    exact lookupField_isSome_of_mem_keys s f (List.mem_map_of_mem Prod.fst hp)
  unfold diff
  rw [diffNew_eq_nil s s h1, diffRemoved_eq_nil s s h2]
  rfl

theorem diff_update_single (pre post : Snapshot) (f a b : String)
    (hnd : ((pre ++ (f, a) :: post).map Prod.fst).Nodup) (hab : a ≠ b) :
    diff (pre ++ (f, a) :: post) (pre ++ (f, b) :: post) = [(f, a, b)] := by
  have hold : ∀ p ∈ pre ++ (f, a) :: post,
      lookupField (pre ++ (f, a) :: post) p.1 = some p.2 := by
    rintro ⟨g, w⟩ hp
    exact lookupField_eq_some_of_mem_nodup _ g w hnd hp
  have hfa : lookupField (pre ++ (f, a) :: post) f = some a :=
    hold (f, a) (List.mem_append_right pre (List.mem_cons_self _ _))
  have hkeys : (pre ++ (f, a) :: post).map Prod.fst = (pre ++ (f, b) :: post).map Prod.fst := by
    simp
  unfold diff
  rw [diffNew_append _ pre ((f, b) :: post)
    (fun p hp => hold p (List.mem_append_left _ hp))]
  simp only [diffNew, hfa, if_neg hab]
  have hrem : ∀ p ∈ pre ++ (f, a) :: post,
      (lookupField (pre ++ (f, b) :: post) p.1).isSome := by
    rintro ⟨g, w⟩ hp
    have hk : g ∈ (pre ++ (f, b) :: post).map Prod.fst := by
      rw [← hkeys]
      exact List.mem_map_of_mem Prod.fst hp
    exact lookupField_isSome_of_mem_keys _ g hk
  rw [diffNew_eq_nil _ post
    (fun p hp => hold p (List.mem_append_right pre (List.mem_cons_of_mem _ hp)))]
  rw [diffRemoved_eq_nil _ _ hrem]
  rfl

/-- Modelled from the spec: the `ActorContext` state — the current actor of
the unit of work and whether the logging listeners are attached (the
middleware is not under the available sources). -/
structure ActorContext where
  actor : Option String
  listenersAttached : Bool
  deriving DecidableEq, Repr

/-- Modelled from the spec: the error raised on a nested `begin`. -/
inductive CtxError where
  | alreadyActive
  deriving DecidableEq, Repr

/-- The INACTIVE state: actor absent, listeners detached. -/
def ActorContext.inactive : ActorContext :=
  { actor := none, listenersAttached := false }

/-- Modelled from the spec: `begin(actor)` sets the actor and attaches the
listeners, failing with `AlreadyActiveError` when already active. -/
def ActorContext.beginUow (ctx : ActorContext) (a : String) : Except CtxError ActorContext :=
  match ctx.actor with
  | some _ => Except.error CtxError.alreadyActive
  | none => Except.ok { actor := some a, listenersAttached := true }

/-- Modelled from the spec: `current()` reads the actor without side
effects. -/
def ActorContext.current (ctx : ActorContext) : Option String :=
  ctx.actor

/-- Modelled from the spec: `end()` clears the actor and detaches the
listeners; it is a total function of the state, so it never raises. -/
def ActorContext.endUow (_ : ActorContext) : ActorContext :=
  ActorContext.inactive

/-- C5: an update changing one field's representation appends exactly one
UPDATE entry whose changes map that field to the old and new
representations, and an update changing no representation appends no
entry. -/
theorem c5_update_one_entry (log : List LogEntry) (etype eid erepr : String)
    (actor : Option String) (ts : Nat) (pre post : Snapshot) (f a b : String)
    (hnd : ((pre ++ (f, a) :: post).map Prod.fst).Nodup) (hab : a ≠ b) :
    logUpdate log etype eid erepr (pre ++ (f, a) :: post) (pre ++ (f, b) :: post) actor ts
      = log ++ [⟨etype, eid, erepr, LogEntry.Action.UPDATE, [(f, a, b)], actor, ts⟩] ∧
    ∀ s : Snapshot, (s.map Prod.fst).Nodup →
      logUpdate log etype eid erepr s s actor ts = log := by
  constructor
  · unfold logUpdate record
    rw [diff_update_single pre post f a b hnd hab]
    simp
  · intro s hs
    unfold logUpdate record
    rw [diff_self_eq_nil s hs]
    simp

/-- Witness for C5 at the scenario of the repository's update test: flipping
`boolean` from `"False"` to `"True"` logs one UPDATE entry with exactly that
change, and a no-op save logs nothing. -/
theorem c5_update_one_entry_witness :
    logUpdate [] "SimpleModel" "1" "I am not difficult." [("boolean", "False"), ("text", "t")]
        [("boolean", "True"), ("text", "t")] none 0
      = [⟨"SimpleModel", "1", "I am not difficult.", LogEntry.Action.UPDATE,
          [("boolean", "False", "True")], none, 0⟩] ∧
    logUpdate [] "SimpleModel" "1" "I am not difficult." [("text", "t")] [("text", "t")] none 0
      = [] :=
  ⟨(c5_update_one_entry [] "SimpleModel" "1" "I am not difficult." none 0 []
      [("text", "t")] "boolean" "False" "True" (by decide) (by decide)).1,
   (c5_update_one_entry [] "SimpleModel" "1" "I am not difficult." none 0 []
      [("text", "t")] "boolean" "False" "True" (by decide) (by decide)).2
     [("text", "t")] (by decide)⟩

/-- C6: with relation path `"parent"` registered for the entity type and a
resolving parent, creating a child produces exactly one related entry on the
parent, with relation `"parent"` and log entry equal to the child's CREATE
entry. -/
theorem c6_create_related_entry (resolveRelated : String → Option (String × String))
    (reg : Registry) (etype eid erepr : String) (actor : Option String) (ts : Nat)
    (pt pid : String)
    (hreg : resolve reg etype = ["parent"])
    (hres : resolveRelated "parent" = some (pt, pid)) :
    (logCreate resolveRelated reg etype eid erepr actor ts).2
      = [⟨(logCreate resolveRelated reg etype eid erepr actor ts).1, pt, pid, "parent"⟩] ∧
    (logCreate resolveRelated reg etype eid erepr actor ts).1.action
      = LogEntry.Action.CREATE := by
  constructor
  · show propagate resolveRelated reg _ etype = _
    unfold propagate
    rw [hreg]
    simp [hres]
    rfl
  · rfl

/-- The host's relation traversal for the test scenario: from the child, the
path `"parent"` resolves to the `SimpleModel` instance with id 1. -/
def sampleResolver : String → Option (String × String) := fun path =>
  if path = "parent" then some ("SimpleModel", "1") else none

/-- The registry after the test app registers `SimpleChildModel` with the
single relation path `"parent"`. -/
def sampleRegistry : Registry :=
  (register sampleSchema "SimpleChildModel" ["parent"] emptyRegistry).1

/-- Witness for C6 at the scenario of the repository's child-model test. -/
theorem c6_create_related_entry_witness :
    (logCreate sampleResolver sampleRegistry "SimpleChildModel" "2" "I guess so." none 0).2
      = [⟨(logCreate sampleResolver sampleRegistry "SimpleChildModel" "2" "I guess so." none 0).1,
          "SimpleModel", "1", "parent"⟩] ∧
    (logCreate sampleResolver sampleRegistry "SimpleChildModel" "2" "I guess so." none 0).1.action
      = LogEntry.Action.CREATE :=
  c6_create_related_entry sampleResolver sampleRegistry "SimpleChildModel" "2" "I guess so."
    none 0 "SimpleModel" "1" (by decide) (by decide)

/-- C7: `end()` never raises (it is a total function on states), calling it
twice in a row or without a prior `begin` succeeds, and from any state —
including the states reached on failure paths — it leaves the context
INACTIVE: actor absent and listeners detached. -/
theorem c7_end_always_inactive (ctx : ActorContext) :
    ctx.endUow = ActorContext.inactive ∧
    ctx.endUow.endUow = ctx.endUow ∧
    ctx.endUow.actor = none ∧
    ctx.endUow.listenersAttached = false ∧
    ActorContext.inactive.endUow = ActorContext.inactive :=
  ⟨rfl, rfl, rfl, rfl, rfl⟩
